import Mathlib

/-!
Shallow embedding of the two orchestrators of the `chenliwen-dev-tools`
VS Code extension: the Deploy Orchestrator (`DeployManager`) and the
Branch Merge Orchestrator (`GitBranchManager`).  Pure data and control
flow are translated directly from the TypeScript source; user-interface
effects (warnings, notifications, progress reporting) are recorded as
explicit fields of the result values, and network / subprocess outcomes
are passed in as parameters.
-/

namespace DevTools

/-- Deployment status enum (`DeployStatus` in the source,
numeric values 1, 2, 3, 4, 5, 9). -/
inductive DeployStatus where
  | prepare
  | doing
  | done
  | error
  | abort
  | jump
deriving DecidableEq, Repr

/-- One tracked deployment (`DeployInfo` in the source).  `status` is
absent until the first successful poll. -/
structure DeployInfo where
  buildId : Nat
  applicationName : String
  status : Option DeployStatus := none
  creator : Option String := none
  startTime : Option String := none
  endTime : Option String := none
  loading : Option Bool := none
deriving DecidableEq, Repr

/-- Normalized HTTP envelope (`ApiResponse` in the source). -/
structure ApiResponse (α : Type) where
  success : Bool
  data : Option α := none
  message : Option String := none
  code : Option String := none
deriving DecidableEq, Repr

/-- Payload of a pipeline-detail (poll) response; `some` marks a field
present in the JSON body, `none` an absent field. -/
structure PollData where
  buildId : Nat
  applicationName : Option String := none
  status : Option DeployStatus := none
  creator : Option String := none
  startTime : Option String := none
  endTime : Option String := none
deriving DecidableEq, Repr

/-- Payload of a pipeline-start response (`response.data` in
`startPipeline`); the build id may be absent. -/
structure StartData where
  buildId : Option Nat := none
deriving DecidableEq, Repr

/-- `checkDone` from the source: a status is terminal iff it is one of
DONE, ERROR, ABORT, JUMP; an absent status is not terminal. -/
def checkDone (status : Option DeployStatus) : Bool :=
  match status with
  | some s => [DeployStatus.done, DeployStatus.error,
               DeployStatus.abort, DeployStatus.jump].contains s
  | none => false

/-- The object spread `{ ...item, ...data }` performed by `fetchProgress`
on the matched record: every field present in the payload overwrites the
record's field, absent fields keep the record's value.  The payload never
carries `loading`. -/
def mergeInfo (item : DeployInfo) (d : PollData) : DeployInfo :=
  { buildId := d.buildId
    applicationName := d.applicationName.getD item.applicationName
    status := d.status <|> item.status
    creator := d.creator <|> item.creator
    startTime := d.startTime <|> item.startTime
    endTime := d.endTime <|> item.endTime
    loading := item.loading }

/-- The list update performed by a successful `fetchProgress`:
`this.deployList = this.deployList.map(item => item.buildId === data.buildId ? merge : item)`. -/
def fetchProgressUpdate (list : List DeployInfo) (d : PollData) : List DeployInfo :=
  list.map (fun item => if item.buildId == d.buildId then mergeInfo item d else item)

/-- Kind of a terminal notification. -/
inductive NotifKind where
  | info
  | warning
deriving DecidableEq, Repr

/-- A completion notification as raised by `showDeployNotification`:
informational for DONE, warning for every other status; the displayed
name comes from the response payload. -/
structure Notification where
  kind : NotifKind
  appName : Option String
deriving DecidableEq, Repr

/-- `showDeployNotification(data)` applied to the poll payload. -/
def mkNotif (d : PollData) : Notification :=
  { kind := if d.status == some DeployStatus.done then NotifKind.info else NotifKind.warning
    appName := d.applicationName }

/-- The notifications emitted by one successful `fetchProgress`: one per
record matched by the payload's buildId whose previous status was
non-terminal while the payload's status is terminal. -/
def pollNotifs (list : List DeployInfo) (d : PollData) : List Notification :=
  (list.filter (fun item =>
      item.buildId == d.buildId && checkDone d.status && !checkDone item.status)).map
    (fun _ => mkNotif d)

/-- Result of one `fetchProgress` call. -/
structure PollResult where
  list : List DeployInfo
  notifs : List Notification
  ret : Option DeployStatus
deriving DecidableEq, Repr

/-- `fetchProgress` from the source, with the HTTP envelope passed in:
on a successful response carrying data it rewrites the list, may emit
notifications, and returns the payload's status; on any failure it
leaves the list untouched and returns null. -/
def fetchProgress (list : List DeployInfo) (resp : ApiResponse PollData) : PollResult :=
  match resp.success, resp.data with
  | true, some d => ⟨fetchProgressUpdate list d, pollNotifs list d, d.status⟩
  | _, _ => ⟨list, [], none⟩

/-- Whitespace as matched by the regex class used in the source. -/
def isWSp (c : Char) : Bool :=
  c == ' ' || c == '\t' || c == '\n' || c == '\r' || c == '\x0b' || c == '\x0c'

/-- Numeric value of a digit string (the `+` coercion applied to the
regex match). -/
def digitsToNat (l : List Char) : Nat :=
  l.foldl (fun n c => n * 10 + (c.toNat - 48)) 0

/-- Keep at most the last four characters. -/
def push4 (prev : List Char) (c : Char) : List Char :=
  let l := prev ++ [c]
  l.drop (l.length - 4)

/-- Left-to-right scan implementing the regex `(?<=id:\s)\d+`: the first
position holding a digit immediately preceded by the four characters
`i`, `d`, `:` and one whitespace starts the match, which extends over
the maximal digit run. -/
def scanBuildId (prev : List Char) : List Char → Option Nat
  | [] => none
  | c :: rest =>
    if c.isDigit && (match prev with
        | ['i', 'd', ':', w] => isWSp w
        | _ => false) then
      some (digitsToNat ((c :: rest).takeWhile Char.isDigit))
    else
      scanBuildId (push4 prev c) rest

/-- `message.match(/(?<=id:\s)\d+/)` followed by numeric coercion. -/
def extractBuildId (m : List Char) : Option Nat :=
  scanBuildId [] m

/-- A fresh record as pushed by `startPipeline`. -/
def mkRecord (buildId : Nat) (applicationCode : String) : DeployInfo :=
  { buildId := buildId, applicationName := applicationCode }

/-- Observable outcome of one `startPipeline` call. -/
structure StartResult where
  ret : Bool
  list : List DeployInfo
  networkCalled : Bool
  warned : Bool
  errorShown : Bool
  pollStarted : Bool
deriving DecidableEq, Repr

/-- `startPipeline` from the source, with the HTTP envelope passed in.
It first rejects when any tracked record carries the same
`applicationName` (warning, no network call); otherwise it issues the
network call and inspects the envelope: a successful response with a
truthy buildId inserts a record and starts polling; failing that, a
code `"409"` with a truthy message whose text matches `(?<=id:\s)\d+`
recovers the existing build id; anything else shows an error. -/
def startPipeline (list : List DeployInfo) (applicationCode : String)
    (resp : ApiResponse StartData) : StartResult :=
  if (list.find? (fun item => item.applicationName == applicationCode)).isSome then
    { ret := false, list := list, networkCalled := false,
      warned := true, errorShown := false, pollStarted := false }
  else
    let buildIdNum := (resp.data.bind (fun dd => dd.buildId)).getD 0
    if resp.success && buildIdNum != 0 then
      { ret := true, list := list ++ [mkRecord buildIdNum applicationCode],
        networkCalled := true, warned := false, errorShown := false, pollStarted := true }
    else if resp.code == some "409" && (resp.message.getD "") != "" then
      match extractBuildId (resp.message.getD "").data with
      | some n =>
        { ret := true, list := list ++ [mkRecord n applicationCode],
          networkCalled := true, warned := false, errorShown := false, pollStarted := true }
      | none =>
        { ret := false, list := list, networkCalled := true,
          warned := false, errorShown := true, pollStarted := false }
    else
      { ret := false, list := list, networkCalled := true,
        warned := false, errorShown := true, pollStarted := false }

/-- The filter computing `deployingList` in `checkProgressLoop`:
records whose status is PREPARE or DOING, or still absent. -/
def deployingFilter (list : List DeployInfo) : List DeployInfo :=
  list.filter (fun item =>
    match item.status with
    | some s => [DeployStatus.prepare, DeployStatus.doing].contains s
    | none => true)

/-- One tick of `checkProgressLoop`, with the poll outcome of each build
id passed in (`none` models a failed poll).  Returns the new list and
whether the timer is re-armed: re-armed iff some poll returned a truthy,
non-terminal status. -/
def tick (list : List DeployInfo) (out : Nat → Option PollData) :
    List DeployInfo × Bool :=
  if (deployingFilter list).isEmpty then (list, false)
  else
    ((deployingFilter list).foldl (fun acc item =>
        match out item.buildId with
        | some d => fetchProgressUpdate acc d
        | none => acc) list,
     ((deployingFilter list).map (fun item =>
        (out item.buildId).bind (fun d => d.status))).any (fun s =>
          match s with
          | some st => !checkDone (some st)
          | none => false))

/-- Raw JSON body of an HTTP reply as consumed by `httpRequest`:
`dataField` is the body's `data` member when present, `self` stands for
the whole body viewed as the payload (the `data.data || data` fallback),
and `message` / `code` are the body's remaining members. -/
structure JsonBody (α : Type) where
  dataField : Option α := none
  self : α
  message : Option String := none
  code : Option String := none
deriving DecidableEq, Repr

/-- Outcome of the underlying `fetch` call: a network / timeout error
(with the error's message text when it has one) or a reply with an HTTP
status and a JSON body. -/
inductive FetchOutcome (α : Type) where
  | netError (msg : Option String)
  | reply (status : Nat) (body : JsonBody α)
deriving DecidableEq, Repr

/-- `httpRequest` from the source, with the token and the fetch outcome
passed in.  A missing token or any thrown error yields a failure
envelope carrying only a message; only HTTP 200 yields a success
envelope, whose `code` is copied from the JSON body. -/
def httpRequest {α : Type} (tok : Option String) (out : FetchOutcome α) :
    ApiResponse α :=
  match tok with
  | none => { success := false, message := some "未获取到token" }
  | some _ =>
    match out with
    | FetchOutcome.netError m =>
      { success := false, message := some (m.getD "请求失败") }
    | FetchOutcome.reply status body =>
      if status == 200 then
        { success := true, data := some (body.dataField.getD body.self),
          message := body.message, code := body.code }
      else
        { success := false, message := some ("HTTP " ++ toString status) }

/-! ### Branch Merge Orchestrator (`GitBranchManager`) -/

/-- Boolean test that `pat` begins `l`. -/
def startsWithL (l pat : List Char) : Bool :=
  match l, pat with
  | _, [] => true
  | [], _ :: _ => false
  | c :: cs, p :: ps => c == p && startsWithL cs ps

/-- Boolean substring test, the semantics of JavaScript
`String.prototype.includes`. -/
def containsSub (hay pat : List Char) : Bool :=
  match hay with
  | [] => pat.isEmpty
  | _ :: rest => startsWithL hay pat || containsSub rest pat

/-- `String.prototype.split('\n')`. -/
def splitLines (l : List Char) : List (List Char) :=
  match l with
  | [] => [[]]
  | c :: rest =>
    if c == '\n' then [] :: splitLines rest
    else
      match splitLines rest with
      | line :: ls => (c :: line) :: ls
      | [] => [[c]]

/-- `branch.replace(/^\*?\s+/, '')`: an optional leading star followed
by at least one whitespace character is removed together with the whole
whitespace run; otherwise a leading whitespace run alone is removed;
any other line is left unchanged. -/
def stripLead (l : List Char) : List Char :=
  match l with
  | '*' :: c :: rest => if isWSp c then (c :: rest).dropWhile isWSp else l
  | c :: _ => if isWSp c then l.dropWhile isWSp else l
  | [] => []

/-- The characters of `remotes/origin/`. -/
def originMark : List Char := ("remotes/origin/").data

/-- `branch.replace(/^remotes\/origin\//, '')`. -/
def stripOrigin (l : List Char) : List Char :=
  if startsWithL l originMark then l.drop originMark.length else l

/-- The characters of `HEAD`. -/
def headMark : List Char := ("HEAD").data

/-- The index-based duplicate filter
`(branch, index, arr) => arr.indexOf(branch) === index`, which keeps the
first occurrence of every element. -/
def dedupAux {α : Type} [DecidableEq α] (seen : List α) : List α → List α
  | [] => []
  | x :: xs => if x ∈ seen then dedupAux seen xs else x :: dedupAux (x :: seen) xs

/-- Duplicate removal keeping first occurrences. -/
def dedupFirst {α : Type} [DecidableEq α] (l : List α) : List α :=
  dedupAux [] l

/-- `getAllBranches` from the source, applied to the raw stdout of
`git branch -a`: split into lines, strip the current-branch marker and
the `remotes/origin/` lead, drop empty lines and lines containing
`HEAD`, and remove duplicates. -/
def getAllBranches (raw : List Char) : List (List Char) :=
  dedupFirst
    (((splitLines raw).map (fun b => stripOrigin (stripLead b))).filter
      (fun b => !b.isEmpty && !containsSub b headMark))

/-- `checkMergeConflict` from the source: the porcelain status output
contains `UU`, `AA` or `DD` anywhere as a substring. -/
def checkMergeConflict (statusOut : String) : Bool :=
  containsSub statusOut.data ("UU").data ||
  containsSub statusOut.data ("AA").data ||
  containsSub statusOut.data ("DD").data

/-- Conflict detection as the specification words it: some status LINE
bears the `UU`, `AA` or `DD` marker (the two leading status columns).
Stated over the spec's words, for comparison with `checkMergeConflict`. -/
def specLineConflict (statusOut : String) : Bool :=
  (splitLines statusOut.data).any (fun l =>
    startsWithL l ("UU").data || startsWithL l ("AA").data || startsWithL l ("DD").data)

/-- `switchAndPullBranch`: the two commands it issues. -/
def switchAndPullCmds (branch : String) : List String :=
  ["git checkout " ++ branch, "git pull origin " ++ branch]

/-- `mergeToTargetBranch`, with the porcelain status output observed by
its conflict check passed in.  Returns the issued command trace and
whether the step completed (false = conflict error thrown before the
push). -/
def mergeToTargetCmds (sourceBranch targetBranch statusOut : String) :
    List String × Bool :=
  let pre := ["git checkout " ++ targetBranch,
              "git pull origin " ++ targetBranch,
              "git merge " ++ sourceBranch,
              "git status --porcelain"]
  if checkMergeConflict statusOut then (pre, false)
  else (pre ++ ["git push origin " ++ targetBranch ++ ":" ++ targetBranch], true)

/-- `executeMergeFlow`, with the status outputs observed after the two
merges passed in.  Returns the full command trace and whether the flow
reached the final success notification; a conflict aborts the remaining
steps, so the original branch is not restored. -/
def executeMergeFlow (branchToMerge originalBranch : String)
    (statusDev statusSit : String) : List String × Bool :=
  let t1 := switchAndPullCmds branchToMerge
  let s2 := mergeToTargetCmds branchToMerge "dev" statusDev
  if !s2.2 then (t1 ++ s2.1, false)
  else
    let s3 := mergeToTargetCmds "dev" "sit" statusSit
    if !s3.2 then (t1 ++ s2.1 ++ s3.1, false)
    else (t1 ++ s2.1 ++ s3.1 ++ ["git checkout " ++ originalBranch], true)

/-! ### Supporting lemmas -/

theorem mem_dedupAux {α : Type} [DecidableEq α] (seen : List α) (l : List α) (a : α) :
    a ∈ dedupAux seen l ↔ a ∈ l ∧ a ∉ seen := by
  induction l generalizing seen with
  | nil => simp [dedupAux]
  | cons x xs ih =>
    simp only [dedupAux]
    by_cases hx : x ∈ seen
    · rw [if_pos hx, ih]
      constructor
      · rintro ⟨ha, hs⟩
        exact ⟨List.mem_cons_of_mem _ ha, hs⟩
      · rintro ⟨ha, hs⟩
        rcases List.mem_cons.mp ha with rfl | ha
        · exact absurd hx hs
        · exact ⟨ha, hs⟩
    · rw [if_neg hx]
      constructor
      · intro h
        rcases List.mem_cons.mp h with rfl | h
        · exact ⟨List.mem_cons_self _ _, hx⟩
        · rcases (ih _).mp h with ⟨ha, hs⟩
          exact ⟨List.mem_cons_of_mem _ ha,
                 fun hin => hs (List.mem_cons_of_mem _ hin)⟩
      · rintro ⟨ha, hs⟩
        rcases List.mem_cons.mp ha with rfl | ha
        · exact List.mem_cons_self _ _
        · by_cases hax : a = x
          · subst hax
            exact List.mem_cons_self _ _
          · refine List.mem_cons_of_mem _ ((ih _).mpr ⟨ha, fun hin => ?_⟩)
            rcases List.mem_cons.mp hin with h | h
            · exact hax h
            · exact hs h

theorem nodup_dedupAux {α : Type} [DecidableEq α] (seen : List α) (l : List α) :
    (dedupAux seen l).Nodup := by
  induction l generalizing seen with
  | nil => simp [dedupAux]
  | cons x xs ih =>
    by_cases hx : x ∈ seen
    · simpa [dedupAux, if_pos hx] using ih seen
    · simp only [dedupAux, if_neg hx]
      refine List.nodup_cons.mpr ⟨fun hmem => ?_, ih _⟩
      exact ((mem_dedupAux _ _ _).mp hmem).2 (List.mem_cons_self x _)

theorem startsWithL_iff (l pat : List Char) :
    startsWithL l pat = true ↔ ∃ q, l = pat ++ q := by
  induction pat generalizing l with
  | nil => simp [startsWithL]
  | cons p ps ih =>
    cases l with
    | nil => simp [startsWithL]
    | cons c cs =>
      simp only [startsWithL, Bool.and_eq_true, beq_iff_eq, ih, List.cons_append]
      constructor
      · rintro ⟨rfl, q, rfl⟩
        exact ⟨q, rfl⟩
      · rintro ⟨q, heq⟩
        injection heq with h1 h2
        exact ⟨h1, q, h2⟩

theorem containsSub_iff (hay pat : List Char) :
    containsSub hay pat = true ↔ ∃ p q, hay = p ++ pat ++ q := by
  induction hay with
  | nil =>
    simp only [containsSub, List.isEmpty_iff]
    constructor
    · rintro rfl
      exact ⟨[], [], rfl⟩
    · rintro ⟨p, q, heq⟩
      rcases List.append_eq_nil.mp (List.append_eq_nil.mp heq.symm).1 with ⟨-, h2⟩
      exact h2
  | cons c rest ih =>
    simp only [containsSub, Bool.or_eq_true, startsWithL_iff, ih]
    constructor
    · rintro (⟨q, heq⟩ | ⟨p, q, heq⟩)
      · exact ⟨[], q, by simpa using heq⟩
      · exact ⟨c :: p, q, by simp [heq]⟩
    · rintro ⟨p, q, heq⟩
      cases p with
      | nil => exact Or.inl ⟨q, by simpa using heq⟩
      | cons p0 ps =>
        injection heq with h1 h2
        exact Or.inr ⟨ps, q, h2⟩

theorem splitLines_head (l : List Char) (line : List Char) (ls : List (List Char))
    (h : splitLines l = line :: ls) : ∃ q, l = line ++ q := by
  induction l generalizing line ls with
  | nil =>
    simp only [splitLines] at h
    injection h with h1 _
    exact ⟨[], by simp [h1.symm]⟩
  | cons c rest ih =>
    by_cases hc : c = '\n'
    · subst hc
      simp only [splitLines, if_pos rfl] at h
      injection h with h1 _
      exact ⟨'\n' :: rest, by simp [h1.symm]⟩
    · have hcb : (c == '\n') = false := beq_eq_false_iff_ne.mpr hc
      simp only [splitLines, hcb, Bool.false_eq_true, if_false] at h
      rcases hrec : splitLines rest with - | ⟨line0, ls0⟩
      · rw [hrec] at h
        injection h with h1 _
        exact ⟨rest, by simp [h1.symm]⟩
      · rw [hrec] at h
        injection h with h1 _
        rcases ih line0 ls0 hrec with ⟨q, hq⟩
        exact ⟨q, by simp [h1.symm, hq]⟩

theorem splitLines_segment (l : List Char) :
    ∀ line ∈ splitLines l, ∃ p q, l = p ++ line ++ q := by
  induction l with
  | nil =>
    intro line hline
    simp only [splitLines, List.mem_singleton] at hline
    exact ⟨[], [], by simp [hline]⟩
  | cons c rest ih =>
    intro line hline
    by_cases hc : c = '\n'
    · subst hc
      have hunf : splitLines ('\n' :: rest) = [] :: splitLines rest := by rfl
      rw [hunf, List.mem_cons] at hline
      rcases hline with hline | hline
      · exact ⟨[], '\n' :: rest, by simp [hline]⟩
      · rcases ih line hline with ⟨p, q, rfl⟩
        exact ⟨'\n' :: p, q, rfl⟩
    · have hcb : (c == '\n') = false := beq_eq_false_iff_ne.mpr hc
      cases hsplit : splitLines (c :: rest) with
      | nil =>
        rw [hsplit] at hline
        exact absurd hline (List.not_mem_nil _)
      | cons line1 ls1 =>
        rw [hsplit] at hline
        rcases List.mem_cons.mp hline with rfl | hline2
        · rcases splitLines_head _ _ _ hsplit with ⟨q, hq⟩
          exact ⟨[], q, by simpa using hq⟩
        · simp only [splitLines, hcb, Bool.false_eq_true, if_false] at hsplit
          cases hrec : splitLines rest with
          | nil =>
            rw [hrec] at hsplit
            injection hsplit with _ h2
            rw [← h2] at hline2
            exact absurd hline2 (List.not_mem_nil _)
          | cons line0 ls0 =>
            rw [hrec] at hsplit
            injection hsplit with _ h2
            have hmem : line ∈ splitLines rest := by
              rw [hrec]
              refine List.mem_cons_of_mem _ ?_
              rw [h2]
              exact hline2
            rcases ih line hmem with ⟨p, q, rfl⟩
            exact ⟨c :: p, q, rfl⟩

theorem length_fetchProgressUpdate (list : List DeployInfo) (d : PollData) :
    (fetchProgressUpdate list d).length = list.length :=
  List.length_map _ _

theorem fetchProgressUpdate_getElem? (list : List DeployInfo) (d : PollData)
    (i : Nat) :
    (fetchProgressUpdate list d)[i]? =
      (list[i]?).map (fun item => if item.buildId == d.buildId then mergeInfo item d else item) :=
  List.getElem?_map _ _ _

theorem fetchProgressUpdate_getElem?_of_ne (list : List DeployInfo) (d : PollData)
    (i : Nat) (h : i < list.length) (hne : (list.get ⟨i, h⟩).buildId ≠ d.buildId) :
    (fetchProgressUpdate list d)[i]? = some (list.get ⟨i, h⟩) := by
  rw [fetchProgressUpdate_getElem?, List.getElem?_eq_getElem h]
  simp only [Option.map_some', List.get_eq_getElem]
  rw [if_neg]
  simp only [beq_iff_eq]
  exact fun hx => hne (by simpa [List.get_eq_getElem] using hx)

theorem tickFold_length (out : Nat → Option PollData) (polled : List DeployInfo) :
    ∀ list : List DeployInfo,
      (polled.foldl (fun acc item =>
        match out item.buildId with
        | some d => fetchProgressUpdate acc d
        | none => acc) list).length = list.length := by
  induction polled with
  | nil => intro list; rfl
  | cons item ps ih =>
    intro list
    simp only [List.foldl_cons]
    rw [ih]
    cases out item.buildId with
    | none => rfl
    | some d => exact length_fetchProgressUpdate _ _

theorem tickFold_getElem? (out : Nat → Option PollData) (b : Nat) (i : Nat)
    (polled : List DeployInfo) :
    ∀ list : List DeployInfo,
      (∀ item ∈ polled, ∀ d, out item.buildId = some d → d.buildId ≠ b) →
      (∀ x, list[i]? = some x → x.buildId = b) →
      (polled.foldl (fun acc item =>
        match out item.buildId with
        | some d => fetchProgressUpdate acc d
        | none => acc) list)[i]? = list[i]? := by
  induction polled with
  | nil => intro list _ _; rfl
  | cons item ps ih =>
    intro list hb hi
    simp only [List.foldl_cons]
    cases hout : out item.buildId with
    | none =>
      exact ih list (fun it hmem d hd => hb it (List.mem_cons_of_mem _ hmem) d hd) hi
    | some d =>
      have hdb : d.buildId ≠ b := hb item (List.mem_cons_self _ _) d hout
      have hstep : (fetchProgressUpdate list d)[i]? = list[i]? := by
        rw [fetchProgressUpdate_getElem?]
        cases hli : list[i]? with
        | none => rfl
        | some y =>
          simp only [Option.map_some']
          rw [if_neg]
          simp only [beq_iff_eq]
          intro hyd
          exact hdb (by rw [← hyd]; exact hi y hli)
      rw [← hstep]
      exact ih (fetchProgressUpdate list d)
        (fun it hmem dd hdd => hb it (List.mem_cons_of_mem _ hmem) dd hdd)
        (fun x hx => hi x (by rw [← hstep]; exact hx))

/-! ### Claim C1 -/

/-- C1 counterexample: a registry whose only record for application `A`
has terminal status DONE still causes `startPipeline` to reject a new
start for `A` with a warning, no network call and a `false` return — the
source checks only the `applicationName`, never the status, so a
terminal record does cause the rejection, contrary to the claim. -/
theorem C1_counterexample :
    startPipeline
        [{ buildId := 5, applicationName := "A", status := some DeployStatus.done }]
        "A" { success := true, data := some { buildId := some 7 } } =
      { ret := false,
        list := [{ buildId := 5, applicationName := "A", status := some DeployStatus.done }],
        networkCalled := false, warned := true, errorShown := false, pollStarted := false } ∧
    checkDone (some DeployStatus.done) = true := by
  decide

/-- C1 amended: `startPipeline` rejects immediately — user-visible
warning, no network request, `false` return, registry unchanged —
exactly when the registry holds ANY `DeploymentRecord` with the same
`applicationName`, regardless of whether its status is terminal; when no
such record exists the network request is issued and no duplicate
warning is shown. -/
theorem C1_theorem (list : List DeployInfo) (appCode : String)
    (resp : ApiResponse StartData) :
    ((∃ item ∈ list, item.applicationName = appCode) →
      startPipeline list appCode resp =
        { ret := false, list := list, networkCalled := false,
          warned := true, errorShown := false, pollStarted := false }) ∧
    ((∀ item ∈ list, item.applicationName ≠ appCode) →
      (startPipeline list appCode resp).networkCalled = true ∧
      (startPipeline list appCode resp).warned = false) := by
  constructor
  · rintro ⟨item, hmem, heq⟩
    have hfind : (list.find? (fun it => it.applicationName == appCode)).isSome :=
      List.find?_isSome.mpr ⟨item, hmem, beq_iff_eq.mpr heq⟩
    simp [startPipeline, hfind]
  · intro hall
    have hnone : list.find? (fun it => it.applicationName == appCode) = none :=
      List.find?_eq_none.mpr (fun x hx => by
        simp only [beq_iff_eq]
        exact hall x hx)
    simp only [startPipeline, hnone, Option.isSome_none, Bool.false_eq_true, if_false]
    split
    · exact ⟨rfl, rfl⟩
    · split
      · split
        · exact ⟨rfl, rfl⟩
        · exact ⟨rfl, rfl⟩
      · exact ⟨rfl, rfl⟩

/-- C1 witness: the amended rejection branch evaluated at a concrete
registry holding a record for `A`. -/
theorem C1_witness :
    startPipeline [{ buildId := 1, applicationName := "A" }] "A" { success := true } =
      { ret := false, list := [{ buildId := 1, applicationName := "A" }],
        networkCalled := false, warned := true, errorShown := false,
        pollStarted := false } :=
  (C1_theorem _ _ _).1 ⟨{ buildId := 1, applicationName := "A" }, by simp, rfl⟩

/-! ### Claim C3 -/

/-- C3 counterexample: a record whose status is terminal (DONE) is moved
back to the non-terminal status DOING by a successful `fetchProgress`
whose response carries status DOING for the same build id — the source
merges the response unconditionally, so terminality is not preserved by
`fetchProgress` itself. -/
theorem C3_counterexample :
    fetchProgress
        [{ buildId := 1, applicationName := "A", status := some DeployStatus.done }]
        { success := true, data := some { buildId := 1, status := some DeployStatus.doing } } =
      { list := [{ buildId := 1, applicationName := "A", status := some DeployStatus.doing }],
        notifs := [], ret := some DeployStatus.doing } ∧
    checkDone (some DeployStatus.done) = true ∧
    checkDone (some DeployStatus.doing) = false := by
  decide

/-- C3 amended: a successful poll overwrites the matched record with the
merged payload, whose status is the response's status whenever the
response carries one (the old status survives only when the response's
status is absent); terminality is preserved only by the polling loop,
whose selection (`deployingFilter`) contains no terminal-status record,
so loop polling never touches a terminal record. -/
theorem C3_theorem (list : List DeployInfo) (d : PollData) (i : Nat)
    (h : i < list.length) :
    ((list.get ⟨i, h⟩).buildId = d.buildId →
      (fetchProgressUpdate list d)[i]? = some (mergeInfo (list.get ⟨i, h⟩) d) ∧
      (mergeInfo (list.get ⟨i, h⟩) d).status = (d.status <|> (list.get ⟨i, h⟩).status)) ∧
    (∀ item ∈ deployingFilter list, checkDone item.status = false) := by
  constructor
  · intro heq
    refine ⟨?_, rfl⟩
    rw [fetchProgressUpdate_getElem?, List.getElem?_eq_getElem h]
    simp only [Option.map_some', List.get_eq_getElem] at *
    rw [if_pos (beq_iff_eq.mpr heq)]
  · intro item hmem
    have hpred := (List.mem_filter.mp hmem).2
    cases hst : item.status with
    | none => simp [checkDone]
    | some s =>
      rw [hst] at hpred
      rw [checkDone]
      cases s with
      | prepare => decide
      | doing => decide
      | done => exact absurd hpred (by decide)
      | error => exact absurd hpred (by decide)
      | abort => exact absurd hpred (by decide)
      | jump => exact absurd hpred (by decide)

/-- C3 witness: the amended overwrite behaviour evaluated on a concrete
terminal record polled with a DOING response. -/
theorem C3_witness :
    (fetchProgressUpdate
        [{ buildId := 1, applicationName := "A", status := some DeployStatus.done }]
        { buildId := 1, status := some DeployStatus.doing })[0]? =
      some (mergeInfo
        { buildId := 1, applicationName := "A", status := some DeployStatus.done }
        { buildId := 1, status := some DeployStatus.doing }) ∧
    (mergeInfo
        { buildId := 1, applicationName := "A", status := some DeployStatus.done }
        { buildId := 1, status := some DeployStatus.doing }).status =
      (some DeployStatus.doing <|> some DeployStatus.done) :=
  ((C3_theorem
      [{ buildId := 1, applicationName := "A", status := some DeployStatus.done }]
      { buildId := 1, status := some DeployStatus.doing } 0 (by decide)).1 rfl)

/-! ### Claim C10 -/

/-- C10: a successful poll rewrites at most the record whose buildId
equals the buildId carried by the response payload: the list keeps its
length (nothing added or removed), every position whose record bears a
different buildId is unchanged, and when the tracked buildIds are
pairwise distinct at most one position can differ from the original. -/
theorem C10_theorem (list : List DeployInfo) (d : PollData) :
    (fetchProgressUpdate list d).length = list.length ∧
    (∀ i (h : i < list.length), (list.get ⟨i, h⟩).buildId ≠ d.buildId →
      (fetchProgressUpdate list d)[i]? = some (list.get ⟨i, h⟩)) ∧
    ((list.map (fun item => item.buildId)).Nodup →
      ∀ i j (hi : i < list.length) (hj : j < list.length),
        (fetchProgressUpdate list d)[i]? ≠ some (list.get ⟨i, hi⟩) →
        (fetchProgressUpdate list d)[j]? ≠ some (list.get ⟨j, hj⟩) → i = j) := by
  refine ⟨length_fetchProgressUpdate _ _,
          fun i h => fetchProgressUpdate_getElem?_of_ne list d i h, ?_⟩
  intro hnd i j hi hj hchi hchj
  have hib : (list.get ⟨i, hi⟩).buildId = d.buildId := by
    by_contra hne
    exact hchi (fetchProgressUpdate_getElem?_of_ne _ _ _ _ hne)
  have hjb : (list.get ⟨j, hj⟩).buildId = d.buildId := by
    by_contra hne
    exact hchj (fetchProgressUpdate_getElem?_of_ne _ _ _ _ hne)
  have hinj := List.nodup_iff_injective_get.mp hnd
  have hlen : (list.map (fun item => item.buildId)).length = list.length :=
    List.length_map _ _
  have hgi :
      (list.map (fun item => item.buildId)).get ⟨i, by rw [hlen]; exact hi⟩ =
      (list.map (fun item => item.buildId)).get ⟨j, by rw [hlen]; exact hj⟩ := by
    rw [List.get_eq_getElem, List.get_eq_getElem, List.getElem_map, List.getElem_map]
    simp only [List.get_eq_getElem] at hib hjb
    exact hib.trans hjb.symm
  have := hinj hgi
  simpa using congrArg Fin.val this

/-- C10 witness: frame property evaluated on a concrete two-record
registry with distinct buildIds. -/
theorem C10_witness :
    (fetchProgressUpdate
        [{ buildId := 1, applicationName := "A" },
         { buildId := 2, applicationName := "B" }]
        { buildId := 2, status := some DeployStatus.doing }).length = 2 ∧
    (fetchProgressUpdate
        [{ buildId := 1, applicationName := "A" },
         { buildId := 2, applicationName := "B" }]
        { buildId := 2, status := some DeployStatus.doing })[0]? =
      some { buildId := 1, applicationName := "A" } := by
  refine ⟨(C10_theorem _ _).1, ?_⟩
  have := (C10_theorem
      [{ buildId := 1, applicationName := "A" },
       { buildId := 2, applicationName := "B" }]
      { buildId := 2, status := some DeployStatus.doing }).2.1 0 (by decide) (by decide)
  simpa using this

/-! ### Claim C5 -/

/-- C5: the completion notification of a poll fires exactly under the
transition the claim names — a response with non-terminal status emits
nothing; every emitted notification is informational precisely for DONE
and a warning for the other terminal statuses; when every record
matching the response's buildId is already terminal nothing is emitted;
a terminal response meeting a matching non-terminal record does emit;
and after a poll that made the matching records terminal, a second poll
for the same buildId emits nothing, so the notification cannot fire a
second time. -/
theorem C5_theorem (list : List DeployInfo) (d d2 : PollData) :
    (checkDone d.status = false → pollNotifs list d = []) ∧
    (∀ n ∈ pollNotifs list d,
      n.kind = (if d.status == some DeployStatus.done then NotifKind.info
                else NotifKind.warning)) ∧
    ((∀ item ∈ list, item.buildId = d.buildId → checkDone item.status = true) →
      pollNotifs list d = []) ∧
    (checkDone d.status = true →
      (∃ item ∈ list, item.buildId = d.buildId ∧ checkDone item.status = false) →
      pollNotifs list d ≠ []) ∧
    (checkDone d.status = true → d2.buildId = d.buildId →
      pollNotifs (fetchProgressUpdate list d) d2 = []) := by
  refine ⟨?_, ?_, ?_, ?_, ?_⟩
  · intro h
    unfold pollNotifs
    rw [List.map_eq_nil_iff, List.filter_eq_nil_iff]
    intro a _
    simp [h]
  · intro n hn
    rcases List.mem_map.mp hn with ⟨a, _, rfl⟩
    rfl
  · intro hall
    unfold pollNotifs
    rw [List.map_eq_nil_iff, List.filter_eq_nil_iff]
    intro a ha
    simp only [Bool.and_eq_true, beq_iff_eq, Bool.not_eq_true', not_and]
    rintro ⟨hbid, -⟩
    simp [hall a ha hbid]
  · rintro hd ⟨item, hmem, hbid, hnt⟩
    refine List.ne_nil_of_mem (a := mkNotif d) ?_
    refine List.mem_map_of_mem _ (List.mem_filter.mpr ⟨hmem, ?_⟩)
    simp [hbid, hd, hnt]
  · intro hd hbid
    unfold pollNotifs
    rw [List.map_eq_nil_iff, List.filter_eq_nil_iff]
    intro a ha
    rcases List.mem_map.mp ha with ⟨old, -, rfl⟩
    by_cases hold : old.buildId == d.buildId
    · rw [if_pos hold]
      have hds : ∃ st, d.status = some st := by
        cases hs : d.status with
        | none =>
          rw [hs] at hd
          exact absurd hd (by decide)
        | some st => exact ⟨st, rfl⟩
      rcases hds with ⟨st, hst⟩
      have hmst : (mergeInfo old d).status = some st := by
        simp [mergeInfo, hst]
      simp only [Bool.and_eq_true, Bool.not_eq_true', not_and]
      rintro ⟨-, -⟩
      rw [hmst, ← hst]
      simp [hd]
    · rw [if_neg hold]
      simp only [Bool.and_eq_true, beq_iff_eq, Bool.not_eq_true', not_and]
      rintro ⟨hbid2, -⟩
      rw [hbid] at hbid2
      exact absurd ((beq_iff_eq).mpr hbid2) hold

/-- C5 witness: the fifth conjunct — no re-notification after
terminality — evaluated on a concrete record driven to DONE. -/
theorem C5_witness :
    pollNotifs
      (fetchProgressUpdate
        [{ buildId := 1, applicationName := "A", status := some DeployStatus.doing }]
        { buildId := 1, status := some DeployStatus.done })
      { buildId := 1, status := some DeployStatus.done } = [] :=
  (C5_theorem
      [{ buildId := 1, applicationName := "A", status := some DeployStatus.doing }]
      { buildId := 1, status := some DeployStatus.done }
      { buildId := 1, status := some DeployStatus.done }).2.2.2.2 (by decide) rfl

/-! ### Claim C4 -/

/-- C4 counterexample: with one tracked record whose status is still
absent (non-terminal) and a tick in which its only poll fails, the loop
does NOT re-arm (`tick` returns `false`), although the record is still
pending (`deployingFilter` still selects it).  There is no following
tick, so the failed record is not retried, refuting the claim that a
poll failure never prevents the retry on the following tick. -/
theorem C4_counterexample :
    tick [{ buildId := 1, applicationName := "A" }] (fun _ => none) =
      ([{ buildId := 1, applicationName := "A" }], false) ∧
    deployingFilter [{ buildId := 1, applicationName := "A" }] =
      [{ buildId := 1, applicationName := "A" }] := by
  decide

/-- C4 amended: when no successful payload of the tick carries the
record's buildId (in particular when that record's own poll fails), the
record is left exactly as it was — its status is kept, never escalated
to terminal — and, if it was pending, it is still selected by
`deployingFilter` for the next tick; but the loop re-arms for a next
tick if and only if at least one poll of the current tick returned a
non-terminal status, so when every poll fails the loop goes idle and no
retry happens until a new `startPipeline`. -/
theorem C4_theorem (list : List DeployInfo) (out : Nat → Option PollData) (b : Nat)
    (hb : ∀ item ∈ deployingFilter list, ∀ d, out item.buildId = some d →
      d.buildId ≠ b) :
    (tick list out).1.length = list.length ∧
    (∀ i (h : i < list.length), (list.get ⟨i, h⟩).buildId = b →
      (tick list out).1[i]? = list[i]?) ∧
    (∀ item ∈ deployingFilter list, item.buildId = b →
      item ∈ deployingFilter (tick list out).1) ∧
    ((tick list out).2 = true ↔
      ∃ item ∈ deployingFilter list, ∃ d, out item.buildId = some d ∧
        ∃ st, d.status = some st ∧ checkDone (some st) = false) := by
  cases hemp : (deployingFilter list).isEmpty with
  | true =>
    have hnil : deployingFilter list = [] := List.isEmpty_iff.mp hemp
    have htick : tick list out = (list, false) := by
      unfold tick
      rw [if_pos hemp]
    refine ⟨by rw [htick], fun i h _ => by rw [htick], ?_, ?_⟩
    · intro item hmem _
      rw [htick]
      exact hmem
    · rw [htick, hnil]
      simp
  | false =>
    have htick : tick list out =
        ((deployingFilter list).foldl (fun acc item =>
            match out item.buildId with
            | some d => fetchProgressUpdate acc d
            | none => acc) list,
         ((deployingFilter list).map (fun item =>
            (out item.buildId).bind (fun d => d.status))).any (fun s =>
              match s with
              | some st => !checkDone (some st)
              | none => false)) := by
      unfold tick
      rw [if_neg (by simp [hemp])]
    have hpos : ∀ i (h : i < list.length), (list.get ⟨i, h⟩).buildId = b →
        (tick list out).1[i]? = list[i]? := by
      intro i h hbi
      rw [htick]
      refine tickFold_getElem? out b i (deployingFilter list) list hb ?_
      intro x hx
      rw [List.getElem?_eq_getElem h] at hx
      injection hx with hx
      rw [← hx]
      simpa [List.get_eq_getElem] using hbi
    refine ⟨?_, hpos, ?_, ?_⟩
    · rw [htick]
      exact tickFold_length _ _ _
    · intro item hmem hbi
      rcases List.mem_filter.mp hmem with ⟨hml, hpred⟩
      rcases List.getElem_of_mem hml with ⟨i, hilt, hget⟩
      have hsame : (tick list out).1[i]? = list[i]? := by
        refine hpos i hilt ?_
        rw [List.get_eq_getElem, hget]
        exact hbi
      have hmem2 : item ∈ (tick list out).1 := by
        have hx : (tick list out).1[i]? = some item := by
          rw [hsame, List.getElem?_eq_getElem hilt, hget]
        rcases List.getElem?_eq_some.mp hx with ⟨hlt, heq⟩
        rw [← heq]
        exact List.getElem_mem _
      exact List.mem_filter.mpr ⟨hmem2, hpred⟩
    · rw [htick]
      simp only [List.any_eq_true, List.mem_map]
      constructor
      · rintro ⟨s, ⟨item, hmem, hfs⟩, hps⟩
        refine ⟨item, hmem, ?_⟩
        cases hout : out item.buildId with
        | none =>
          rw [hout] at hfs
          simp only [Option.bind_eq_bind, Option.none_bind] at hfs
          rw [← hfs] at hps
          exact absurd hps (by decide)
        | some d =>
          refine ⟨d, rfl, ?_⟩
          rw [hout] at hfs
          simp only [Option.bind_eq_bind, Option.some_bind] at hfs
          cases hds : d.status with
          | none =>
            rw [hds] at hfs
            rw [← hfs] at hps
            exact absurd hps (by decide)
          | some st =>
            refine ⟨st, rfl, ?_⟩
            rw [hds] at hfs
            rw [← hfs] at hps
            simpa [Bool.not_eq_true'] using hps
      · rintro ⟨item, hmem, d, hout, st, hds, hnt⟩
        refine ⟨some st, ⟨item, hmem, ?_⟩, by simp [hnt]⟩
        rw [hout]
        simp [hds]

/-- C4 witness: the amended behaviour on a two-record registry in which
record 1's poll fails while record 2's poll returns DOING: record 1 is
untouched, still pending, and the loop re-arms. -/
theorem C4_witness :
    (tick
      [{ buildId := 1, applicationName := "A" },
       { buildId := 2, applicationName := "B" }]
      (fun n => if n == 2 then
          some { buildId := 2, status := some DeployStatus.doing } else none)).1[0]? =
      some { buildId := 1, applicationName := "A" } ∧
    (tick
      [{ buildId := 1, applicationName := "A" },
       { buildId := 2, applicationName := "B" }]
      (fun n => if n == 2 then
          some { buildId := 2, status := some DeployStatus.doing } else none)).2 = true := by
  have h := C4_theorem
    [{ buildId := 1, applicationName := "A" },
     { buildId := 2, applicationName := "B" }]
    (fun n => if n == 2 then
        some { buildId := 2, status := some DeployStatus.doing } else none)
    1 (by
      intro item hmem d hd hdb
      fin_cases hmem
      · simp at hd
      · have hd2 : ({ buildId := 2, status := some DeployStatus.doing } : PollData) = d := by
          simpa using hd
        rw [← hd2] at hdb
        exact absurd hdb (by decide))
  constructor
  · have := h.2.1 0 (by decide) (by decide)
    simpa using this
  · exact h.2.2.2.mpr
      ⟨{ buildId := 2, applicationName := "B" }, by decide,
       { buildId := 2, status := some DeployStatus.doing }, by decide,
       DeployStatus.doing, rfl, by decide⟩

/-! ### Claim C2 -/

/-- C2 counterexample: in a clean repository (empty porcelain outputs,
original branch `feature/login`), the trace actually issued by
`executeMergeFlow` is not the eleven-command sequence of the claim: the
third hop checks out and pulls `sit` (not `dev` again), and a
`git status --porcelain` query follows each merge. -/
theorem C2_counterexample :
    executeMergeFlow "feature/login" "feature/login" "" "" ≠
      (["git checkout feature/login", "git pull origin feature/login",
        "git checkout dev", "git pull origin dev", "git merge feature/login",
        "git push origin dev:dev", "git checkout dev", "git pull origin dev",
        "git merge dev", "git push origin sit:sit", "git checkout feature/login"],
       true) := by
  decide

/-- C2 amended: in a clean repository, starting from `feature/login`,
the workflow issues checkout `feature/login`; pull `feature/login`;
checkout `dev`; pull `dev`; merge `feature/login`; status query; push
`dev:dev`; checkout `sit`; pull `sit`; merge `dev`; status query; push
`sit:sit`; checkout `feature/login` — followed by the success
notification. -/
theorem C2_theorem (statusDev statusSit : String)
    (h1 : checkMergeConflict statusDev = false)
    (h2 : checkMergeConflict statusSit = false) :
    executeMergeFlow "feature/login" "feature/login" statusDev statusSit =
      (["git checkout feature/login", "git pull origin feature/login",
        "git checkout dev", "git pull origin dev", "git merge feature/login",
        "git status --porcelain", "git push origin dev:dev",
        "git checkout sit", "git pull origin sit", "git merge dev",
        "git status --porcelain", "git push origin sit:sit",
        "git checkout feature/login"],
       true) := by
  have e1 : mergeToTargetCmds "feature/login" "dev" statusDev =
      (["git checkout dev", "git pull origin dev", "git merge feature/login",
        "git status --porcelain", "git push origin dev:dev"], true) := by
    unfold mergeToTargetCmds
    rw [if_neg (by simp [h1])]
    rfl
  have e2 : mergeToTargetCmds "dev" "sit" statusSit =
      (["git checkout sit", "git pull origin sit", "git merge dev",
        "git status --porcelain", "git push origin sit:sit"], true) := by
    unfold mergeToTargetCmds
    rw [if_neg (by simp [h2])]
    rfl
  unfold executeMergeFlow
  rw [e1, e2]
  rfl

/-- C2 witness: the amended trace evaluated on empty (clean) porcelain
outputs. -/
theorem C2_witness :
    executeMergeFlow "feature/login" "feature/login" "" "" =
      (["git checkout feature/login", "git pull origin feature/login",
        "git checkout dev", "git pull origin dev", "git merge feature/login",
        "git status --porcelain", "git push origin dev:dev",
        "git checkout sit", "git pull origin sit", "git merge dev",
        "git status --porcelain", "git push origin sit:sit",
        "git checkout feature/login"],
       true) :=
  C2_theorem "" "" (by decide) (by decide)

/-! ### Claim C6 -/

/-- C6 counterexample: the status output `?? ADD.txt` has no line
bearing a `UU`, `AA` or `DD` marker (`specLineConflict` is false), yet
the source's substring test signals a conflict, so the merge step aborts
without its push, contrary to the claim that such an output lets the
push proceed. -/
theorem C6_counterexample :
    checkMergeConflict "?? ADD.txt" = true ∧
    specLineConflict "?? ADD.txt" = false ∧
    (mergeToTargetCmds "feature/a" "dev" "?? ADD.txt").2 = false ∧
    ("git push origin dev:dev" ∈ (mergeToTargetCmds "feature/a" "dev" "?? ADD.txt").1
      → False) := by
  decide

/-- C6 amended: after a merge the step aborts before its push exactly
when the porcelain output contains `UU`, `AA` or `DD` anywhere as a
substring (not only as a line marker); any output whose lines bear such
a marker is in particular caught; when no such substring occurs the step
ends with the push as its last command, and on abort exactly the four
pre-push commands were issued. -/
theorem C6_theorem (src tgt statusOut : String) :
    ((mergeToTargetCmds src tgt statusOut).2 = false ↔
      (∃ p q, statusOut.data = p ++ ("UU").data ++ q) ∨
      (∃ p q, statusOut.data = p ++ ("AA").data ++ q) ∨
      (∃ p q, statusOut.data = p ++ ("DD").data ++ q)) ∧
    (specLineConflict statusOut = true → (mergeToTargetCmds src tgt statusOut).2 = false) ∧
    ((mergeToTargetCmds src tgt statusOut).2 = true →
      (mergeToTargetCmds src tgt statusOut).1.getLast? =
        some ("git push origin " ++ tgt ++ ":" ++ tgt)) ∧
    ((mergeToTargetCmds src tgt statusOut).2 = false →
      (mergeToTargetCmds src tgt statusOut).1.length = 4) := by
  have hiff : checkMergeConflict statusOut = true ↔
      (∃ p q, statusOut.data = p ++ ("UU").data ++ q) ∨
      (∃ p q, statusOut.data = p ++ ("AA").data ++ q) ∨
      (∃ p q, statusOut.data = p ++ ("DD").data ++ q) := by
    unfold checkMergeConflict
    simp only [Bool.or_eq_true, containsSub_iff, or_assoc]
  have hline : specLineConflict statusOut = true →
      checkMergeConflict statusOut = true := by
    intro hl
    rcases List.any_eq_true.mp hl with ⟨line, hmem, hstart⟩
    rcases splitLines_segment _ line hmem with ⟨p, q, hseg⟩
    simp only [Bool.or_eq_true] at hstart
    rcases hstart with (h | h) | h
    · refine hiff.mpr (Or.inl ?_)
      rcases (startsWithL_iff _ _).mp h with ⟨r, hr⟩
      exact ⟨p, r ++ q, by rw [hseg, hr]; simp⟩
    · refine hiff.mpr (Or.inr (Or.inl ?_))
      rcases (startsWithL_iff _ _).mp h with ⟨r, hr⟩
      exact ⟨p, r ++ q, by rw [hseg, hr]; simp⟩
    · refine hiff.mpr (Or.inr (Or.inr ?_))
      rcases (startsWithL_iff _ _).mp h with ⟨r, hr⟩
      exact ⟨p, r ++ q, by rw [hseg, hr]; simp⟩
  cases hc : checkMergeConflict statusOut with
  | true =>
    have hm : mergeToTargetCmds src tgt statusOut =
        (["git checkout " ++ tgt, "git pull origin " ++ tgt,
          "git merge " ++ src, "git status --porcelain"], false) := by
      unfold mergeToTargetCmds
      rw [if_pos hc]
    refine ⟨?_, fun _ => by rw [hm], ?_, fun _ => by rw [hm]; rfl⟩
    · rw [hm]
      simpa using hiff.mp hc
    · intro habs
      rw [hm] at habs
      simp at habs
  | false =>
    have hm : mergeToTargetCmds src tgt statusOut =
        (["git checkout " ++ tgt, "git pull origin " ++ tgt,
          "git merge " ++ src, "git status --porcelain",
          "git push origin " ++ tgt ++ ":" ++ tgt], true) := by
      unfold mergeToTargetCmds
      rw [if_neg (by simp [hc])]
      rfl
    refine ⟨?_, ?_, fun _ => by rw [hm]; rfl, ?_⟩
    · rw [hm]
      constructor
      · intro habs
        simp at habs
      · intro hdisj
        rw [← hiff] at hdisj
        rw [hc] at hdisj
        exact absurd hdisj (by decide)
    · intro hl
      rw [hline hl] at hc
      exact absurd hc (by decide)
    · intro habs
      rw [hm] at habs
      simp at habs

/-- C6 witness: the push proceeds on an ordinary modified-file status
without conflict markers. -/
theorem C6_witness :
    (mergeToTargetCmds "feature/a" "dev" " M src/a.ts").1.getLast? =
      some ("git push origin " ++ "dev" ++ ":" ++ "dev") := by
  have h := C6_theorem "feature/a" "dev" " M src/a.ts"
  exact h.2.2.1 (by decide)

/-! ### Claim C7 -/

/-- C7: when no record with the requested applicationCode is tracked and
the pipeline-start response is a failure envelope carrying code `"409"`
and a non-empty message from which the fixed pattern extracts the build
id `n`, `startPipeline` appends a record with buildId `n` and
applicationName equal to the requested code, starts the polling loop and
returns true. -/
theorem C7_theorem (list : List DeployInfo) (appCode : String)
    (resp : ApiResponse StartData) (m : String) (n : Nat)
    (hdup : ∀ item ∈ list, item.applicationName ≠ appCode)
    (hs : resp.success = false)
    (hc : resp.code = some "409")
    (hm : resp.message = some m)
    (hne : m ≠ "")
    (hex : extractBuildId m.data = some n) :
    startPipeline list appCode resp =
      { ret := true, list := list ++ [mkRecord n appCode], networkCalled := true,
        warned := false, errorShown := false, pollStarted := true } := by
  have hnone : list.find? (fun it => it.applicationName == appCode) = none :=
    List.find?_eq_none.mpr (fun x hx => by
      simp only [beq_iff_eq]
      exact hdup x hx)
  unfold startPipeline
  rw [hnone]
  rw [if_neg (by simp)]
  rw [if_neg (by simp [hs])]
  rw [if_pos (by simp [hc, hm, hne])]
  rw [hm]
  simp only [Option.getD_some]
  rw [hex]

/-- C7 witness: scenario 2 of the specification — a 409 response whose
message embeds `id: 4521`. -/
theorem C7_witness :
    startPipeline [] "app"
      { success := false, message := some "conflict, id: 4521 already running",
        code := some "409" } =
      { ret := true, list := [] ++ [mkRecord 4521 "app"], networkCalled := true,
        warned := false, errorShown := false, pollStarted := true } :=
  C7_theorem [] "app"
    { success := false, message := some "conflict, id: 4521 already running",
      code := some "409" }
    "conflict, id: 4521 already running" 4521
    (by simp) rfl rfl rfl (by decide) (by decide)

theorem count_eq_one_of_nodup_mem {α : Type} [BEq α] [LawfulBEq α]
    {l : List α} {a : α} (hn : l.Nodup) (ha : a ∈ l) : l.count a = 1 := by
  induction l with
  | nil => exact absurd ha (List.not_mem_nil _)
  | cons x xs ih =>
    rcases List.nodup_cons.mp hn with ⟨hx, hxs⟩
    rw [List.count_cons]
    rcases List.mem_cons.mp ha with rfl | ha2
    · rw [if_pos (by simp), List.count_eq_zero.mpr hx]
    · have hne : ¬(x == a) = true := by
        simp only [beq_iff_eq]
        rintro rfl
        exact hx ha2
      rw [ih hxs ha2, if_neg hne]

/-! ### Claim C8 -/

/-- C8: for every raw `git branch -a` output whose lines include both
`  feature/x` and `  remotes/origin/feature/x` (and, as for every real
listing, no doubly-prefixed line), the computed branch list contains
`feature/x` exactly once, has no duplicates, contains no entry with
`HEAD` in it, and no entry still carrying the `remotes/origin/` lead. -/
theorem C8_theorem (raw : List Char)
    (h1 : ("  feature/x").data ∈ splitLines raw)
    (h2 : ("  remotes/origin/feature/x").data ∈ splitLines raw)
    (h3 : ∀ l ∈ splitLines raw,
      startsWithL (stripOrigin (stripLead l)) originMark = false) :
    (getAllBranches raw).count (("feature/x").data) = 1 ∧
    (getAllBranches raw).Nodup ∧
    (∀ b ∈ getAllBranches raw, containsSub b headMark = false) ∧
    (∀ b ∈ getAllBranches raw, startsWithL b originMark = false) := by
  have hnodup : (getAllBranches raw).Nodup := nodup_dedupAux _ _
  have hmem : ("feature/x").data ∈ getAllBranches raw := by
    unfold getAllBranches dedupFirst
    refine (mem_dedupAux _ _ _).mpr ⟨?_, List.not_mem_nil _⟩
    refine List.mem_filter.mpr ⟨?_, by decide⟩
    have : stripOrigin (stripLead (("  feature/x").data)) = ("feature/x").data := by
      decide
    rw [← this]
    exact List.mem_map_of_mem _ h1
  refine ⟨count_eq_one_of_nodup_mem hnodup hmem, hnodup, ?_, ?_⟩
  · intro b hb
    have hfil : b ∈ ((splitLines raw).map
        (fun l => stripOrigin (stripLead l))).filter
        (fun l => !l.isEmpty && !containsSub l headMark) :=
      ((mem_dedupAux _ _ _).mp hb).1
    have hpred := (List.mem_filter.mp hfil).2
    rcases Bool.and_eq_true _ _ |>.mp hpred with ⟨-, hh⟩
    simpa using hh
  · intro b hb
    have hfil : b ∈ ((splitLines raw).map
        (fun l => stripOrigin (stripLead l))).filter
        (fun l => !l.isEmpty && !containsSub l headMark) :=
      ((mem_dedupAux _ _ _).mp hb).1
    rcases List.mem_map.mp (List.mem_filter.mp hfil).1 with ⟨l, hl, rfl⟩
    exact h3 l hl

/-- C8 witness: a realistic five-line listing with a current-branch
star, a HEAD pointer line and a duplicated `feature/x`. -/
theorem C8_witness :
    (getAllBranches
      ("* main\n  feature/x\n  remotes/origin/HEAD -> origin/main\n  remotes/origin/feature/x\n  remotes/origin/main").data).count
        (("feature/x").data) = 1 ∧
    (getAllBranches
      ("* main\n  feature/x\n  remotes/origin/HEAD -> origin/main\n  remotes/origin/feature/x\n  remotes/origin/main").data).Nodup :=
  have h := C8_theorem
    ("* main\n  feature/x\n  remotes/origin/HEAD -> origin/main\n  remotes/origin/feature/x\n  remotes/origin/main").data
    (by decide) (by decide) (by decide)
  ⟨h.1, h.2.1⟩

/-! ### Claim C9 -/

/-- C9: any failure of `httpRequest` — missing token, network or timeout
error, non-200 HTTP status — yields an envelope with `success = false`
and no `code`; an envelope carrying a `code` can only come from an HTTP
200 reply whose JSON body carries that code, with `success = true`; and
consequently the 409 build-id recovery branch of `startPipeline`, which
requires `code = "409"`, is reachable only through an HTTP 200 reply
whose body carries code `"409"`. -/
theorem C9_theorem {α : Type} (tok : Option String) (out : FetchOutcome α) :
    ((httpRequest tok out).success = false → (httpRequest tok out).code = none) ∧
    (∀ c, (httpRequest tok out).code = some c →
      (httpRequest tok out).success = true ∧
      ∃ body, out = FetchOutcome.reply 200 body ∧ body.code = some c) ∧
    (∀ (tok2 : Option String) (out2 : FetchOutcome StartData)
        (list : List DeployInfo) (appCode : String),
      (startPipeline list appCode (httpRequest tok2 out2)).pollStarted = true →
      ¬((httpRequest tok2 out2).success = true ∧
        ((httpRequest tok2 out2).data.bind (fun dd => dd.buildId)).getD 0 ≠ 0) →
      ∃ body, out2 = FetchOutcome.reply 200 body ∧ body.code = some "409") := by
  have hkey : ∀ (β : Type) (tk : Option String) (o : FetchOutcome β) (c : String),
      (httpRequest tk o).code = some c →
      (httpRequest tk o).success = true ∧
      ∃ body, o = FetchOutcome.reply 200 body ∧ body.code = some c := by
    intro β tk o c hc
    cases tk with
    | none => exact absurd hc (by simp [httpRequest])
    | some t =>
      cases o with
      | netError m => exact absurd hc (by simp [httpRequest])
      | reply status body =>
        by_cases hst : status == 200
        · have h200 : status = 200 := by simpa using hst
          subst h200
          refine ⟨by simp [httpRequest], body, rfl, ?_⟩
          simpa [httpRequest] using hc
        · exact absurd hc (by simp [httpRequest, hst])
  refine ⟨?_, hkey α tok out, ?_⟩
  · intro hf
    cases tok with
    | none => simp [httpRequest]
    | some t =>
      cases out with
      | netError m => simp [httpRequest]
      | reply status body =>
        by_cases hst : status == 200
        · have h200 : status = 200 := by simpa using hst
          subst h200
          rw [httpRequest] at hf
          simp at hf
        · simp [httpRequest, hst]
  · intro tok2 out2 list appCode hpoll hnot
    have hc : (httpRequest tok2 out2).code = some "409" := by
      by_contra hcne
      unfold startPipeline at hpoll
      rcases hfind : (List.find? (fun item => item.applicationName == appCode) list) with - | it
      · rw [hfind] at hpoll
        simp only [Option.isSome_none, Bool.false_eq_true, if_false] at hpoll
        rw [if_neg (by
          intro hand
          rcases Bool.and_eq_true _ _ |>.mp hand with ⟨hsuc, hbid⟩
          exact hnot ⟨hsuc, by simpa using hbid⟩)] at hpoll
        rw [if_neg (by
          intro hand
          rcases Bool.and_eq_true _ _ |>.mp hand with ⟨hcode, -⟩
          exact hcne (by simpa using hcode))] at hpoll
        simp at hpoll
      · rw [hfind] at hpoll
        simp at hpoll
    exact hkey StartData tok2 out2 "409" hc |>.2

/-- C9 witness: a 500 reply yields a failure envelope without a code. -/
theorem C9_witness :
    (httpRequest (some "tok")
        (FetchOutcome.reply 500
          { dataField := none, self := ({ } : StartData) })).code = none :=
  (C9_theorem (some "tok")
      (FetchOutcome.reply 500 { dataField := none, self := ({ } : StartData) })).1
    rfl

end DevTools
